import Mathlib

/-
  Verification development for the NTSB proxy API's core:
  the in-memory case-processing pipeline (filter / sort / paginate / stats)
  from app/server/services/data_processor.py and the upstream streaming
  retry client from app/server/services/ntsb_client.py.

  The embedding is shallow: Python JSON-ish values become the mutual
  inductive type `Value`; Python builtins used by the source (truthiness,
  `==`, `<`, `int(...)`, `str.split`, `str.lower`, list slicing) are
  modelled as executable Lean functions; the retry loop becomes a
  function over an abstract upstream, with the chunks yielded to the
  caller, the requests issued and the backoff sleeps made explicit.
-/

/-! ## JSON-ish values (Python objects handled by the pipeline) -/

mutual
/-- A Python value as it appears in the decoded NTSB JSON payload:
`None`, `bool`, `int`, `str`, `list`, or `dict` with string keys. -/
inductive Value where
  | null
  | bool (b : Bool)
  | int (n : Int)
  | str (s : String)
  | list (xs : ValueList)
  | obj (fields : Fields)
deriving Repr, DecidableEq

/-- A Python list of values. -/
inductive ValueList where
  | nil
  | cons (v : Value) (rest : ValueList)
deriving Repr, DecidableEq

/-- A Python dict with string keys, as an ordered field list
(JSON decoding produces no duplicate keys). -/
inductive Fields where
  | nil
  | cons (key : String) (v : Value) (rest : Fields)
deriving Repr, DecidableEq
end

mutual
/-- Structural size of a value; used as a recursion-depth bound (fuel)
for the Python `==` / `<` models below. -/
def Value.size : Value → Nat
  | .null => 1
  | .bool _ => 1
  | .int _ => 1
  | .str _ => 1
  | .list xs => 1 + xs.size
  | .obj fs => 1 + fs.size

def ValueList.size : ValueList → Nat
  | .nil => 1
  | .cons v rest => 1 + v.size + rest.size

def Fields.size : Fields → Nat
  | .nil => 1
  | .cons _ v rest => 1 + v.size + rest.size
end

def ValueList.length : ValueList → Nat
  | .nil => 0
  | .cons _ rest => 1 + rest.length

/-- Indexing `xs[i]` for a Python list, returning `none` out of range. -/
def ValueList.get? : ValueList → Nat → Option Value
  | .nil, _ => none
  | .cons v _, 0 => some v
  | .cons _ rest, Nat.succ n => rest.get? n

def ValueList.toList : ValueList → List Value
  | .nil => []
  | .cons v rest => v :: rest.toList

def ValueList.ofList : List Value → ValueList
  | [] => .nil
  | v :: rest => .cons v (ValueList.ofList rest)

def Fields.length : Fields → Nat
  | .nil => 0
  | .cons _ _ rest => 1 + rest.length

/-- Python `d[k]` / `k in d` support: first binding of `key`
(dicts decoded from JSON have no duplicate keys). -/
def lookupField : Fields → String → Option Value
  | .nil, _ => none
  | .cons k v rest, key => if k = key then some v else lookupField rest key

/-- Python `dict.get(key)`: the bound value, or `None` when absent. -/
def dictGet (fs : Fields) (key : String) : Value :=
  (lookupField fs key).getD .null

/-! ## Python builtins used by the source -/

/-- Python truthiness of a value (`bool(v)`): `None`, `False`, `0`, `""`
and empty containers are falsy. -/
def truthy : Value → Bool
  | .null => false
  | .bool b => b
  | .int n => n != 0
  | .str s => s != ""
  | .list .nil => false
  | .list (.cons _ _) => true
  | .obj .nil => false
  | .obj (.cons _ _ _) => true

/-- Python `int(b)` for a bool. -/
def pyBoolInt (b : Bool) : Int := if b then 1 else 0

/-- ASCII lowering of one character; the source only lowers the
sort-order token (`"desc"`/`"asc"`), which is ASCII. -/
def lowerChar (c : Char) : Char :=
  if 'A' ≤ c ∧ c ≤ 'Z' then Char.ofNat (c.toNat + 32) else c

/-- Python `str.lower()` restricted to ASCII letters. -/
def pyLower (s : String) : String := ⟨s.data.map lowerChar⟩

/-- Python `text.split(sep)` for a one-character separator:
`"".split(".") == [""]` and empty pieces are kept. -/
def splitOnChar (sep : Char) : List Char → List (List Char)
  | [] => [[]]
  | c :: rest =>
    let r := splitOnChar sep rest
    if c = sep then [] :: r
    else
      match r with
      | h :: t => (c :: h) :: t
      | [] => [[c]]

def pySplit (s : String) (sep : Char) : List String :=
  (splitOnChar sep s.data).map (fun cs => String.mk cs)

def digitVal (c : Char) : Option Nat :=
  if '0' ≤ c ∧ c ≤ '9' then some (c.toNat - '0'.toNat) else none

def parseDigits : List Char → Option Nat → Option Nat
  | [], acc => acc
  | c :: rest, acc =>
    match digitVal c with
    | none => none
    | some d => parseDigits rest (some ((acc.getD 0) * 10 + d))

/-- Python `int(s)` on a string: optional sign followed by decimal
digits; anything else raises `ValueError`, modelled as `none`. -/
def pyStrToInt (s : String) : Option Int :=
  match s.data with
  | '-' :: rest => (parseDigits rest none).map (fun n => -(n : Int))
  | '+' :: rest => (parseDigits rest none).map (fun n => (n : Int))
  | cs => (parseDigits cs none).map (fun n => (n : Int))

/-- Lexicographic `<` on character lists (Python string comparison is
lexicographic by code point). -/
def lexLtChar : List Char → List Char → Bool
  | [], [] => false
  | [], _ :: _ => true
  | _ :: _, [] => false
  | a :: as_, b :: bs => if a = b then lexLtChar as_ bs else decide (a < b)

/-- Python `a < b` on strings. -/
def pyStrLt (a b : String) : Bool := lexLtChar a.data b.data

/-- For each key of `todo`, the value bound in the dict `b`, or `none`
as soon as a key is missing. Realizes the key-by-key lookup of
CPython's `dict.__eq__` as a pointwise list comparison. -/
def objValuesIn (b : Fields) : Fields → Option ValueList
  | .nil => some .nil
  | .cons k _ rest =>
    match lookupField b k with
    | some w => (objValuesIn b rest).map (fun ws => ValueList.cons w ws)
    | none => none

/-- The values of a dict, in field order. -/
def objValuesOf : Fields → ValueList
  | .nil => .nil
  | .cons _ v rest => .cons v (objValuesOf rest)

/-- Python `==` on values, with explicit fuel bounding the recursion
depth (one unit per constructor step; the sum of the two operands'
sizes is always sufficient, see `pyEq`). Numeric cross-type equality
holds (`True == 1`); `None` equals only `None`; lists compare
elementwise with equal lengths; dicts compare length and then
key-by-key lookup (realized as the pointwise comparison of the two
value lists aligned by `objValuesIn`), which is CPython's
`dict.__eq__`; a missing key makes the dicts unequal. Different types
otherwise compare unequal. -/
def pyEqF : Nat → Value → Value → Bool
  | 0, _, _ => false
  | Nat.succ fuel, v, w =>
    match v, w with
    | .null, .null => true
    | .bool a, .bool b => a == b
    | .bool a, .int n => pyBoolInt a == n
    | .int n, .bool b => n == pyBoolInt b
    | .int a, .int b => a == b
    | .str a, .str b => a == b
    | .list .nil, .list .nil => true
    | .list (.cons x xs), .list (.cons y ys) =>
      pyEqF fuel x y && pyEqF fuel (.list xs) (.list ys)
    | .obj a, .obj b =>
      a.length == b.length &&
        (match objValuesIn b a with
         | none => false
         | some ws => pyEqF fuel (.list (objValuesOf a)) (.list ws))
    | _, _ => false

/-- Python `v == w`. The fuel `v.size + w.size` bounds every chain of
nested constructor descents the comparison can make. -/
def pyEq (v w : Value) : Bool := pyEqF (v.size + w.size) v w

/-- Python membership `x in xs` for a list: true iff some element
compares `==` to `x`. -/
def pyMem (x : Value) : ValueList → Bool
  | .nil => false
  | .cons y rest => pyEq y x || pyMem x rest

/-- Python `v < w` on values, with fuel as in `pyEqF`; `none` models a
`TypeError` (unorderable types). Numbers (ints and bools) compare
numerically; strings lexicographically; lists lexicographically using
`==` then `<` on the first unequal pair; everything else (including
`None` and dicts) is unorderable. -/
def pyLtF : Nat → Value → Value → Option Bool
  | 0, _, _ => none
  | Nat.succ fuel, v, w =>
    match v, w with
    | .int a, .int b => some (decide (a < b))
    | .int a, .bool b => some (decide (a < pyBoolInt b))
    | .bool a, .int b => some (decide (pyBoolInt a < b))
    | .bool a, .bool b => some (decide (pyBoolInt a < pyBoolInt b))
    | .str a, .str b => some (pyStrLt a b)
    | .list .nil, .list .nil => some false
    | .list .nil, .list (.cons _ _) => some true
    | .list (.cons _ _), .list .nil => some false
    | .list (.cons x xs), .list (.cons y ys) =>
      if pyEqF fuel x y then pyLtF fuel (.list xs) (.list ys) else pyLtF fuel x y
    | _, _ => none

/-- Python `v < w`. -/
def pyLt (v w : Value) : Option Bool := pyLtF (v.size + w.size) v w

/-! ## Path accessor (data_processor.get_nested_value, two copies)

The source defines `get_nested_value` twice, once inside `filter_cases`
(lines 52-70) and once inside `sort_cases` (lines 107-123). The copies
differ in the mapping case: the filter copy tests `part not in current`
and returns `None` early, the sort copy calls `current.get(part)` whose
default `None` then falls through the next iteration. Both are embedded
separately and compared in the C8 theorem. -/

/-- One traversal of the filter copy: for each path segment, a list
requires the segment to parse as an in-range non-negative index, a dict
requires the key to be present, anything else resolves to `None`. -/
def gnvFilterGo : Value → List String → Value
  | cur, [] => cur
  | cur, part :: rest =>
    match cur with
    | .list xs =>
      match pyStrToInt part with
      | none => .null
      | some idx =>
        if idx < 0 ∨ (xs.length : Int) ≤ idx then .null
        else
          match xs.get? idx.toNat with
          | some nxt => gnvFilterGo nxt rest
          | none => .null
    | .obj fields =>
      match lookupField fields part with
      | none => .null
      | some nxt => gnvFilterGo nxt rest
    | _ => .null

/-- The `get_nested_value` copy defined inside `filter_cases`. -/
def getNestedValueFilter (obj : Value) (path : String) : Value :=
  gnvFilterGo obj (pySplit path '.')

/-- One traversal of the sort copy: identical to the filter copy except
that a missing dict key continues with `None` (`current.get(part)`)
instead of returning early. -/
def gnvSortGo : Value → List String → Value
  | cur, [] => cur
  | cur, part :: rest =>
    match cur with
    | .list xs =>
      match pyStrToInt part with
      | none => .null
      | some idx =>
        if idx < 0 ∨ (xs.length : Int) ≤ idx then .null
        else
          match xs.get? idx.toNat with
          | some nxt => gnvSortGo nxt rest
          | none => .null
    | .obj fields => gnvSortGo (dictGet fields part) rest
    | _ => .null

/-- The `get_nested_value` copy defined inside `sort_cases`. -/
def getNestedValueSort (obj : Value) (path : String) : Value :=
  gnvSortGo obj (pySplit path '.')

/-! ## filter_cases (data_processor.py lines 41-97) -/

/-- Whether a filter's expected value triggers the collection branch
(`isinstance(value, (list, tuple, set))`); in the JSON-ish model the
sequence type is `Value.list`. -/
def isCollection : Value → Bool
  | .list _ => true
  | _ => false

/-- The inner `for key, value in filters.items()` loop of
`filter_cases` for one case: `None`-valued filters are skipped; a
collection filter requires membership of the resolved value; any other
filter requires `==`; the first failing predicate breaks the loop. -/
def matchesFilters (case : Value) : List (String × Value) → Bool
  | [] => true
  | (key, value) :: rest =>
    if value = .null then matchesFilters case rest
    else
      let actual := getNestedValueFilter case key
      match value with
      | .list elems =>
        if pyMem actual elems then matchesFilters case rest else false
      | _ =>
        if pyEq actual value then matchesFilters case rest else false

/-- Python `filter_cases(cases, filters)`: empty filters return the input
unchanged, otherwise the cases matching every filter, in order. -/
def filterCases (cases : List Value) (filters : List (String × Value)) : List Value :=
  if filters.isEmpty then cases
  else cases.filter (fun c => matchesFilters c filters)

/-! ## sort_cases (data_processor.py lines 99-131) -/

/-- The `sort_key(case)` function: the pair `(value is None, value)` over the sort
copy of the path accessor; the boolean pushes `None` keys to the
largest position in the ascending key order. -/
def sortKey (field : String) (case : Value) : Bool × Value :=
  let value := getNestedValueSort case field
  (value = .null, value)

/-- Python `<` on the `(bool, value)` sort keys: tuple comparison
compares the bools (`False < True`) and, when they are `==`, compares
the values, where equal values make the tuples not-less without calling
`<`. -/
def sortKeyLt (a b : Bool × Value) : Option Bool :=
  if a.1 = b.1 then
    if pyEq a.2 b.2 then some false else pyLt a.2 b.2
  else
    some (!a.1 && b.1)

/-- Stable insertion of a new element `x` into an already-sorted prefix
of earlier elements: `x` goes in front of the first strictly greater
element and after anything equal (CPython's binary insertion compares
`pivot < existing`), so equal keys keep their original relative order;
a `TypeError` in a comparison (`none`) aborts the whole sort, as in
CPython. -/
def insertSorted (lt : Value → Value → Option Bool) (x : Value) :
    List Value → Option (List Value)
  | [] => some [x]
  | y :: ys =>
    match lt x y with
    | none => none
    | some true => some (x :: y :: ys)
    | some false => (insertSorted lt x ys).map (fun zs => y :: zs)

/-- A stable comparison sort driven only by `<` on keys (CPython's
`sorted` observed through the comparisons it makes and the order it
returns): each element in input order is inserted into the sorted
prefix of the elements before it; fails iff some performed comparison
raises. -/
def pySortAsc (lt : Value → Value → Option Bool)
    (cases : List Value) : Option (List Value) :=
  cases.foldlM (fun acc x => insertSorted lt x acc) []

/-- Python `sorted(cases, key=sort_key, reverse=descending)`: `reverse=True`
is CPython's reverse-sort-reverse, which keeps the sort stable while
producing descending key order. -/
def pySorted (lt : Value → Value → Option Bool) (cases : List Value)
    (descending : Bool) : Option (List Value) :=
  if descending then (pySortAsc lt cases.reverse).map List.reverse
  else pySortAsc lt cases

/-- The `sort_cases(cases, field, order)` operation: an empty (falsy) field returns
the input unchanged; otherwise a stable sort on `sort_key`, descending
iff `order.lower() == "desc"`; `none` models the `TypeError` CPython
raises when two keys are unorderable. -/
def sortCases (cases : List Value) (field : String) (order : String) :
    Option (List Value) :=
  if field = "" then some cases
  else
    let descending : Bool := pyLower order = "desc"
    pySorted (fun c1 c2 => sortKeyLt (sortKey field c1) (sortKey field c2))
      cases descending

/-! ## paginate (data_processor.py lines 133-157) -/

/-- The `PaginationResult` dataclass from the source (`to_dict` flattening elided:
the claims address the fields). -/
structure PaginationResult where
  items : List Value
  total : Nat
  limit : Int
  offset : Int
deriving Repr, DecidableEq

/-- Clamp one Python slice bound to `[0, n]`: negative indices count
from the end, out-of-range indices clamp. -/
def sliceBound (n : Nat) (i : Int) : Nat :=
  if i < 0 then (max ((n : Int) + i) 0).toNat else (min i (n : Int)).toNat

/-- Python `xs[i:j]` (step 1): the elements from the clamped lower
bound up to the clamped upper bound; never errs. -/
def pySlice (xs : List Value) (i j : Int) : List Value :=
  let lo := sliceBound xs.length i
  let hi := sliceBound xs.length j
  (xs.drop lo).take (hi - lo)

/-- The `paginate(cases, limit, offset)` operation: slice `cases[offset : offset+limit]`
with `total` the length before slicing. -/
def paginate (cases : List Value) (limit offset : Int) : PaginationResult :=
  { items := pySlice cases offset (offset + limit)
    total := cases.length
    limit := limit
    offset := offset }

/-! ## generate_stats (data_processor.py lines 159-213) -/

/-- Python `int(v)`: exact for bools and ints, decimal-string parsing for
strings, and a `TypeError` (`none`) for `None`, lists and dicts. -/
def pyIntOf : Value → Option Int
  | .bool b => some (pyBoolInt b)
  | .int n => some n
  | .str s => pyStrToInt s
  | _ => none

/-- The expression `int(case.get(key) or 0)`: a falsy value (missing, `None`, `0`,
`""`, empty containers) becomes `0`; otherwise `int(...)`, which can
raise. -/
def getCountOrZero (fields : Fields) (key : String) : Option Int :=
  let v := dictGet fields key
  if truthy v then pyIntOf v else some 0

/-- The expression `case.get(key) or "Unknown"`: a falsy value becomes the string
`"Unknown"`. -/
def getOrUnknown (fields : Fields) (key : String) : Value :=
  let v := dictGet fields key
  if truthy v then v else .str "Unknown"

/-- Whether a value can be a Python dict key (hashable): lists and
dicts are unhashable and raise `TypeError` when used as keys. -/
def hashable : Value → Bool
  | .list _ => false
  | .obj _ => false
  | _ => true

/-- Increment the binding of `key` in an insertion-ordered counter
dict, appending a fresh binding when absent. -/
def bumpGo : List (Value × Int) → Value → List (Value × Int)
  | [], key => [(key, 1)]
  | (k, c) :: rest, key =>
    if pyEq k key then (k, c + 1) :: rest else (k, c) :: bumpGo rest key

/-- The update `d[k] = d.get(k, 0) + 1` on a counter dict keyed by values:
fails (`TypeError`) on an unhashable key, otherwise increments the
first `==`-equal binding or appends a fresh one. -/
def bumpCounter (counter : List (Value × Int)) (key : Value) :
    Option (List (Value × Int)) :=
  if hashable key then some (bumpGo counter key) else none

/-- The `totals` dict built by `generate_stats`. -/
structure StatsTotals where
  accidents : Int
  fatal_accidents : Int
  serious_injury_accidents : Int
  minor_injury_accidents : Int
  no_injury_accidents : Int
  fatalities : Int
  serious_injuries : Int
  minor_injuries : Int
deriving Repr, DecidableEq

/-- The full result of `generate_stats`. -/
structure StatsResult where
  totals : StatsTotals
  by_state : List (Value × Int)
  by_highest_injury : List (Value × Int)
deriving Repr, DecidableEq

def emptyTotals : StatsTotals :=
  { accidents := 0, fatal_accidents := 0, serious_injury_accidents := 0
    minor_injury_accidents := 0, no_injury_accidents := 0
    fatalities := 0, serious_injuries := 0, minor_injuries := 0 }

def emptyStats : StatsResult :=
  { totals := emptyTotals, by_state := [], by_highest_injury := [] }

/-- One iteration of the `for case in cases` loop of `generate_stats`:
count the accident, coerce the three injury counts (any raise aborts
the whole call), accumulate the injury totals, bump the
highest-injury counter, classify into exactly one severity bucket by
the `if fatal / elif serious / elif minor / else` chain, and bump the
state counter. A non-dict case raises (`case.get` on a non-dict). -/
def statsStepObj (acc : StatsResult) (fields : Fields) : Option StatsResult :=
  match getCountOrZero fields "cm_fatalInjuryCount" with
  | none => none
  | some fatal =>
    match getCountOrZero fields "cm_seriousInjuryCount" with
    | none => none
    | some serious =>
      match getCountOrZero fields "cm_minorInjuryCount" with
      | none => none
      | some minor =>
        match bumpCounter acc.by_highest_injury (getOrUnknown fields "cm_highestInjury") with
        | none => none
        | some byHighest =>
          match bumpCounter acc.by_state (getOrUnknown fields "cm_state") with
          | none => none
          | some byState =>
            some
              { totals :=
                  { accidents := acc.totals.accidents + 1
                    fatalities := acc.totals.fatalities + fatal
                    serious_injuries := acc.totals.serious_injuries + serious
                    minor_injuries := acc.totals.minor_injuries + minor
                    fatal_accidents :=
                      acc.totals.fatal_accidents + (if 0 < fatal then 1 else 0)
                    serious_injury_accidents :=
                      acc.totals.serious_injury_accidents +
                        (if 0 < fatal then 0 else if 0 < serious then 1 else 0)
                    minor_injury_accidents :=
                      acc.totals.minor_injury_accidents +
                        (if 0 < fatal then 0 else if 0 < serious then 0
                         else if 0 < minor then 1 else 0)
                    no_injury_accidents :=
                      acc.totals.no_injury_accidents +
                        (if 0 < fatal then 0 else if 0 < serious then 0
                         else if 0 < minor then 0 else 1) }
                by_state := byState
                by_highest_injury := byHighest }

def statsStep (acc : StatsResult) : Value → Option StatsResult
  | .obj fields => statsStepObj acc fields
  | _ => none

/-- The `generate_stats(cases)` operation: fold the loop body over the cases; `none`
models the call raising (bad count value, unhashable key, non-dict
case), in which case no partial totals are observed. -/
def generateStats (cases : List Value) : Option StatsResult :=
  cases.foldlM statsStep emptyStats

/-! ## Streaming retry client (ntsb_client._stream_file_export)

`_stream_file_export` is an async generator: per attempt it opens one
POST, calls `raise_for_status()`, then forwards the body's chunks to
the caller as they arrive. A transport error
(`ConnectError` / `ReadTimeout` / `RemoteProtocolError`) — which can
also strike mid-body, after some chunks were already forwarded — is
retried with `sleep(1.0 * attempt)` while `attempt < MAX_RETRIES`,
else re-raised; an HTTP error status (4xx/5xx raised by
`raise_for_status`, hence before any chunk) is retried the same way
only when 5xx, else surfaced immediately.

The upstream is abstracted as `Nat → Attempt`: what the n-th issued
request would do. The loop counter is phrased as the number of retries
still allowed (`MAX_RETRIES - attempt`), so the recursion is
structural; the source's `attempt >= MAX_RETRIES` test is exactly
`retriesLeft = 0`. A run records the chunks forwarded to the caller,
the number of requests issued, the backoff sleeps made (in seconds),
and the final outcome. -/

/-- A body chunk (a byte string the pipeline never inspects). -/
abbrev Chunk := List Nat

/-- The transient transport exceptions retried by the client. -/
inductive TransportKind where
  | connectError
  | readTimeout
  | remoteProtocolError
deriving Repr, DecidableEq

/-- The observable behavior of one upstream request. -/
inductive Attempt where
  /-- A transport failure; `delivered` is what was forwarded to the
  caller before the failure (empty for a connection failure, possibly
  non-empty for a mid-body timeout or framing error). -/
  | transportFail (k : TransportKind) (delivered : List Chunk)
  /-- A response with this HTTP status: `raise_for_status` raises for
  `status ≥ 400` before any chunk; otherwise the body streams fully. -/
  | response (status : Nat) (chunks : List Chunk)
deriving Repr, DecidableEq

/-- How a run of the generator ends for its caller. -/
inductive Outcome where
  | ok
  | transportErr (k : TransportKind)
  | statusErr (code : Nat)
deriving Repr, DecidableEq

/-- What the caller of `_stream_file_export` observes. -/
structure StreamRun where
  /-- Chunks forwarded to the caller, in order, across all attempts. -/
  delivered : List Chunk
  /-- Total requests issued. -/
  requests : Nat
  /-- Backoff sleeps made, in seconds (`RETRY_BACKOFF_SECONDS * attempt`
  with the 1.0-second base). -/
  sleeps : List Nat
  outcome : Outcome
deriving Repr, DecidableEq

/-- The `MAX_RETRIES` constant from the source. -/
def MAX_RETRIES : Nat := 3

/-- The retry loop from request index `n` (attempt number `n + 1`) with
`retriesLeft = MAX_RETRIES - (n + 1)` further attempts allowed. -/
def runFrom (up : Nat → Attempt) (n : Nat) : Nat → StreamRun
  | 0 =>
    match up n with
    | .transportFail k d =>
      { delivered := d, requests := n + 1, sleeps := [], outcome := .transportErr k }
    | .response status chunks =>
      if 400 ≤ status then
        { delivered := [], requests := n + 1, sleeps := [], outcome := .statusErr status }
      else
        { delivered := chunks, requests := n + 1, sleeps := [], outcome := .ok }
  | Nat.succ retriesLeft =>
    match up n with
    | .transportFail _k d =>
      let rest := runFrom up (n + 1) retriesLeft
      { delivered := d ++ rest.delivered, requests := rest.requests
        sleeps := (n + 1) :: rest.sleeps, outcome := rest.outcome }
    | .response status chunks =>
      if 400 ≤ status then
        if 500 ≤ status ∧ status < 600 then
          let rest := runFrom up (n + 1) retriesLeft
          { delivered := rest.delivered, requests := rest.requests
            sleeps := (n + 1) :: rest.sleeps, outcome := rest.outcome }
        else
          { delivered := [], requests := n + 1, sleeps := [], outcome := .statusErr status }
      else
        { delivered := chunks, requests := n + 1, sleeps := [], outcome := .ok }

/-- A full run of `_stream_file_export` against the abstract upstream:
first attempt, `MAX_RETRIES - 1` retries allowed. -/
def streamFileExport (up : Nat → Attempt) : StreamRun :=
  runFrom up 0 (MAX_RETRIES - 1)

/-! ## Unimplemented lookup variants (ntsb_client.py lines 165-178) -/

/-- A raised Python exception kind observable from the placeholder
generators. -/
inductive PyError where
  | notImplementedError (msg : String)
deriving Repr, DecidableEq

/-- An async generator as its consumer observes it: the chunks it
yields, then either normal exhaustion (`none`) or a raised error. -/
structure AsyncGen where
  yields : List Chunk
  raised : Option PyError
deriving Repr, DecidableEq

/-- The `stream_ntsb_zip_by_ntsb_number(ntsb_num, mode)` operation: the inner
generator raises `NotImplementedError` on first consumption; the
`yield b""` after the raise is unreachable (kept in the source only to
make the function a generator). -/
def streamNtsbZipByNtsbNumber (_ntsbNum : String) (_mode : String) : AsyncGen :=
  { yields := []
    raised := some (.notImplementedError "Download by NTSB number is not wired to NTSB yet.") }

/-- The `stream_ntsb_zip_by_mkey(mkey, mode)` operation: the inner generator raises
`NotImplementedError` on first consumption; the `yield b""` after the
raise is unreachable. -/
def streamNtsbZipByMkey (_mkey : Int) (_mode : String) : AsyncGen :=
  { yields := []
    raised := some (.notImplementedError "Download by mkey is not wired to NTSB yet.") }

/-! ## Concrete fixtures used in evidence and witnesses -/

/-- The record `{"a": 1}`. -/
def caseWithA : Value := .obj (.cons "a" (.int 1) .nil)

/-- The record `{}` — the path `"a"` resolves to absent. -/
def caseNoA : Value := .obj .nil

/-- The first record of the spec's stats scenario:
`{"cm_fatalInjuryCount": 1, "cm_state": "OK", "cm_highestInjury": "Fatal"}`. -/
def scenFatal : Value :=
  .obj (.cons "cm_fatalInjuryCount" (.int 1)
    (.cons "cm_state" (.str "OK") (.cons "cm_highestInjury" (.str "Fatal") .nil)))

/-- The second record of the spec's stats scenario:
`{"cm_state": "TX", "cm_highestInjury": "None"}`. -/
def scenNone : Value :=
  .obj (.cons "cm_state" (.str "TX") (.cons "cm_highestInjury" (.str "None") .nil))

/-- An upstream that fails transiently (no chunks delivered) on the
first two attempts and succeeds on the third. -/
def upTwoTransientThenOk : Nat → Attempt := fun n =>
  match n with
  | 0 => .transportFail .readTimeout []
  | 1 => .transportFail .connectError []
  | _ => .response 200 [[2, 3]]

/-- An upstream whose first attempt delivers one chunk and then fails
mid-body; the second attempt succeeds with a different body. -/
def upMidStreamFail : Nat → Attempt := fun n =>
  match n with
  | 0 => .transportFail .readTimeout [[1]]
  | _ => .response 200 [[2]]

/-- An upstream that always succeeds immediately. -/
def upAllOk : Nat → Attempt := fun _ => .response 200 [[7]]

/-! ## Helper lemmas -/

theorem gnvSortGo_null (parts : List String) : gnvSortGo .null parts = .null := by
  cases parts <;> rfl

theorem gnvGo_agree (parts : List String) :
    ∀ cur : Value, gnvFilterGo cur parts = gnvSortGo cur parts := by
  induction parts with
  | nil => intro cur; rfl
  | cons p rest ih =>
    intro cur
    cases cur with
    | list xs =>
      simp only [gnvFilterGo, gnvSortGo]
      cases pyStrToInt p with
      | none => rfl
      | some idx =>
        by_cases hr : idx < 0 ∨ (xs.length : Int) ≤ idx
        · simp [hr]
        · simp only [hr, if_false]
          cases xs.get? idx.toNat with
          | none => rfl
          | some nxt => exact ih nxt
    | obj fields =>
      simp only [gnvFilterGo, gnvSortGo, dictGet]
      cases h : lookupField fields p with
      | none => simp [gnvSortGo_null]
      | some nxt => exact ih nxt
    | null => rfl
    | bool b => rfl
    | int n => rfl
    | str s => rfl

/-- Unfolding of the retry loop: a transport failure with retries left
forwards what was delivered and retries after sleeping `attempt`
seconds. -/
theorem runFrom_transport_retry (up : Nat → Attempt) (n r : Nat)
    (k : TransportKind) (d : List Chunk) (h : up n = .transportFail k d) :
    runFrom up n (r + 1) =
      { delivered := d ++ (runFrom up (n + 1) r).delivered
        requests := (runFrom up (n + 1) r).requests
        sleeps := (n + 1) :: (runFrom up (n + 1) r).sleeps
        outcome := (runFrom up (n + 1) r).outcome } := by
  simp [runFrom, h]

/-- Unfolding of the retry loop: a transport failure with no retries
left surfaces that error. -/
theorem runFrom_transport_last (up : Nat → Attempt) (n : Nat)
    (k : TransportKind) (d : List Chunk) (h : up n = .transportFail k d) :
    runFrom up n 0 =
      { delivered := d, requests := n + 1, sleeps := [], outcome := .transportErr k } := by
  simp [runFrom, h]

/-- Unfolding of the retry loop: a non-error status streams the body
and finishes. -/
theorem runFrom_ok (up : Nat → Attempt) (n r : Nat) (s : Nat) (cs : List Chunk)
    (h : up n = .response s cs) (hs : s < 400) :
    runFrom up n r =
      { delivered := cs, requests := n + 1, sleeps := [], outcome := .ok } := by
  cases r <;> simp [runFrom, h, Nat.not_le.mpr hs]

/-- Unfolding of the retry loop: a non-5xx error status is surfaced
immediately, with nothing delivered and no sleep. -/
theorem runFrom_status_noretry (up : Nat → Attempt) (n r : Nat) (s : Nat)
    (cs : List Chunk) (h : up n = .response s cs) (h4 : 400 ≤ s)
    (h5 : ¬(500 ≤ s ∧ s < 600)) :
    runFrom up n r =
      { delivered := [], requests := n + 1, sleeps := [], outcome := .statusErr s } := by
  cases r <;> simp [runFrom, h, h4, h5]

/-- Unfolding of the retry loop: a 5xx status with retries left sleeps
and retries, delivering nothing from this attempt. -/
theorem runFrom_status_retry (up : Nat → Attempt) (n r : Nat) (s : Nat)
    (cs : List Chunk) (h : up n = .response s cs) (h5 : 500 ≤ s ∧ s < 600) :
    runFrom up n (r + 1) =
      { delivered := (runFrom up (n + 1) r).delivered
        requests := (runFrom up (n + 1) r).requests
        sleeps := (n + 1) :: (runFrom up (n + 1) r).sleeps
        outcome := (runFrom up (n + 1) r).outcome } := by
  have h4 : 400 ≤ s := by omega
  simp [runFrom, h, h4, h5]

/-- Unfolding of the retry loop: any error status with no retries left
is surfaced. -/
theorem runFrom_status_last (up : Nat → Attempt) (n : Nat) (s : Nat)
    (cs : List Chunk) (h : up n = .response s cs) (h4 : 400 ≤ s) :
    runFrom up n 0 =
      { delivered := [], requests := n + 1, sleeps := [], outcome := .statusErr s } := by
  simp [runFrom, h, h4]

/-- The loop of `filter_cases` (with its early `break`) equals the
conjunction of the per-filter predicates. -/
theorem matchesFilters_eq_all (c : Value) :
    ∀ fs : List (String × Value),
      matchesFilters c fs =
        fs.all (fun kv =>
          decide (kv.2 = .null) ||
            (match kv.2 with
             | .list elems => pyMem (getNestedValueFilter c kv.1) elems
             | _ => pyEq (getNestedValueFilter c kv.1) kv.2)) := by
  intro fs
  induction fs with
  | nil => rfl
  | cons kv rest ih =>
    obtain ⟨key, value⟩ := kv
    by_cases hn : value = .null
    · subst hn
      simpa [matchesFilters] using ih
    · cases value with
      | list elems =>
        by_cases hm : pyMem (getNestedValueFilter c key) elems
        · simpa [matchesFilters, hn, hm] using ih
        · simp [matchesFilters, hn, hm]
      | null => exact absurd rfl hn
      | bool b =>
        by_cases he : pyEq (getNestedValueFilter c key) (.bool b)
        · simpa [matchesFilters, hn, he] using ih
        · simp [matchesFilters, hn, he]
      | int n =>
        by_cases he : pyEq (getNestedValueFilter c key) (.int n)
        · simpa [matchesFilters, hn, he] using ih
        · simp [matchesFilters, hn, he]
      | str s =>
        by_cases he : pyEq (getNestedValueFilter c key) (.str s)
        · simpa [matchesFilters, hn, he] using ih
        · simp [matchesFilters, hn, he]
      | obj fields =>
        by_cases he : pyEq (getNestedValueFilter c key) (.obj fields)
        · simpa [matchesFilters, hn, he] using ih
        · simp [matchesFilters, hn, he]

/-- Python `None` is `==` only to `None`. -/
theorem pyEq_null_iff (v : Value) : pyEq .null v = true ↔ v = .null := by
  cases v <;> simp [pyEq, Value.size, Nat.one_add, pyEqF]

/-! ## Claim theorems -/

/-- C1 (evidence of the code bug): sorting `[{"a": 1}, {}]` by the path
`"a"` in descending order places the record whose resolved value is
absent strictly BEFORE the record with a present value — `sorted`'s
`reverse=True` flips the whole key order, including the "None last"
boolean of `sort_key`, so absent keys come first in descending order,
contrary to the claim (and to the source's own comment "Put None
values at the end regardless of sort order"). -/
theorem sort_cases_desc_puts_absent_first :
    getNestedValueSort caseNoA "a" = .null ∧
    getNestedValueSort caseWithA "a" = .int 1 ∧
    sortCases [caseWithA, caseNoA] "a" "desc" = some [caseNoA, caseWithA] :=
  ⟨rfl, rfl, rfl⟩

/-- C7: path resolution is total and yields absent (`None`) for every
failure shape: a list segment that does not parse as an integer, an
out-of-range or negative index into a list, a key missing from a dict,
and any further segment applied to a scalar. -/
theorem path_resolution_absent_cases :
    (∀ (xs : ValueList) (part : String) (rest : List String),
      pyStrToInt part = none → gnvFilterGo (.list xs) (part :: rest) = .null) ∧
    (∀ (xs : ValueList) (part : String) (rest : List String) (idx : Int),
      pyStrToInt part = some idx → (idx < 0 ∨ (xs.length : Int) ≤ idx) →
        gnvFilterGo (.list xs) (part :: rest) = .null) ∧
    (∀ (fields : Fields) (part : String) (rest : List String),
      lookupField fields part = none → gnvFilterGo (.obj fields) (part :: rest) = .null) ∧
    (∀ (cur : Value) (part : String) (rest : List String),
      (∀ xs, cur ≠ .list xs) → (∀ fields, cur ≠ .obj fields) →
        gnvFilterGo cur (part :: rest) = .null) := by
  refine ⟨?_, ?_, ?_, ?_⟩
  · intro xs part rest h
    simp [gnvFilterGo, h]
  · intro xs part rest idx h hr
    simp [gnvFilterGo, h, hr]
  · intro fields part rest h
    simp [gnvFilterGo, h]
  · intro cur part rest hl ho
    cases cur with
    | list xs => exact absurd rfl (hl xs)
    | obj fields => exact absurd rfl (ho fields)
    | null => rfl
    | bool b => rfl
    | int n => rfl
    | str s => rfl

/-- C7 witness: the absent cases at concrete inputs, through
`path_resolution_absent_cases` itself. -/
theorem path_resolution_absent_cases_witness :
    gnvFilterGo (.list .nil) ["x"] = .null ∧
    gnvFilterGo (.list (.cons (.int 7) .nil)) ["1"] = .null ∧
    gnvFilterGo (.obj .nil) ["k"] = .null ∧
    gnvFilterGo (.int 3) ["k"] = .null :=
  ⟨path_resolution_absent_cases.1 .nil "x" [] rfl,
   path_resolution_absent_cases.2.1 (.cons (.int 7) .nil) "1" [] 1 rfl (by decide),
   path_resolution_absent_cases.2.2.1 .nil "k" [] rfl,
   path_resolution_absent_cases.2.2.2 (.int 3) "k" []
     (fun xs h => Value.noConfusion h) (fun fields h => Value.noConfusion h)⟩

/-- C8: the dotted-path accessor defined inside `filter_cases` and the
one defined inside `sort_cases` are extensionally equal: the early
return on a missing dict key in the filter copy and the `.get` default
of the sort copy resolve every record and path to the same value. -/
theorem path_accessors_agree (obj : Value) (path : String) :
    getNestedValueFilter obj path = getNestedValueSort obj path :=
  gnvGo_agree (pySplit path '.') obj

/-- C9: the two unimplemented lookup variants raise
`NotImplementedError` as soon as their generator is consumed, and
never yield a chunk, for every input. -/
theorem unsupported_lookups_always_fail (ntsbNum : String) (mkey : Int) (mode : String) :
    (streamNtsbZipByNtsbNumber ntsbNum mode).yields = [] ∧
    (streamNtsbZipByNtsbNumber ntsbNum mode).raised =
      some (.notImplementedError "Download by NTSB number is not wired to NTSB yet.") ∧
    (streamNtsbZipByMkey mkey mode).yields = [] ∧
    (streamNtsbZipByMkey mkey mode).raised =
      some (.notImplementedError "Download by mkey is not wired to NTSB yet.") :=
  ⟨rfl, rfl, rfl, rfl⟩

theorem take_min_length {α : Type} (xs : List α) (k : Nat) :
    xs.take (min k xs.length) = xs.take k := by
  induction xs generalizing k with
  | nil => simp
  | cons x rest ih =>
    cases k with
    | zero => simp
    | succ k => simp [List.length_cons, Nat.succ_min_succ, ih]

/-- C6: filtering retains a record iff it matches every non-null
predicate, as a conjunction: a null expected value is skipped, a list
expected value tests membership, anything else tests Python equality;
an empty filter set returns the input unchanged (order preserved by
`List.filter` on both sides); and a resolved absent (`None`) is never
`==` to a non-null expected value. -/
theorem filter_cases_conjunction :
    (∀ cases : List Value, filterCases cases [] = cases) ∧
    (∀ (cases : List Value) (fs : List (String × Value)),
      filterCases cases fs =
        cases.filter (fun c =>
          fs.all (fun kv =>
            decide (kv.2 = .null) ||
              (match kv.2 with
               | .list elems => pyMem (getNestedValueFilter c kv.1) elems
               | _ => pyEq (getNestedValueFilter c kv.1) kv.2)))) ∧
    (∀ v : Value, v ≠ .null → pyEq .null v = false) := by
  refine ⟨fun cases => rfl, ?_, ?_⟩
  · intro cases fs
    cases fs with
    | nil => simp [filterCases]
    | cons kv rest =>
      unfold filterCases
      simp only [List.isEmpty_cons, if_false, Bool.false_eq_true]
      simp only [matchesFilters_eq_all]
  · intro v hv
    cases hb : pyEq .null v
    · rfl
    · exact absurd ((pyEq_null_iff v).mp hb) hv

/-- C6 witness: the conjunction characterization and the
absent-never-equal fact at concrete inputs, through
`filter_cases_conjunction` itself. -/
theorem filter_cases_conjunction_witness :
    filterCases [caseWithA, caseNoA] [] = [caseWithA, caseNoA] ∧
    filterCases [caseWithA, caseNoA] [("a", .int 1)] = [caseWithA] ∧
    pyEq .null (.int 1) = false :=
  ⟨filter_cases_conjunction.1 [caseWithA, caseNoA],
   by rw [filter_cases_conjunction.2.1 [caseWithA, caseNoA] [("a", .int 1)]]; rfl,
   filter_cases_conjunction.2.2 (.int 1) (by decide)⟩

/-- C5: for `limit ≥ 1` and `offset ≥ 0`, `paginate` slices exactly
`records[offset : offset + limit]` — drop `offset`, take `limit` —
with out-of-range offsets clamped to the empty list rather than an
error, and always reports `total` as the full input length, regardless
of `limit` and `offset`. -/
theorem paginate_spec (cases : List Value) (limit offset : Int)
    (hl : 1 ≤ limit) (ho : 0 ≤ offset) :
    (paginate cases limit offset).items =
      (cases.drop offset.toNat).take limit.toNat ∧
    (paginate cases limit offset).total = cases.length ∧
    (cases.length ≤ offset.toNat → (paginate cases limit offset).items = []) := by
  have key : pySlice cases offset (offset + limit) =
      (cases.drop offset.toNat).take limit.toNat := by
    unfold pySlice sliceBound
    have h1 : ¬ offset < 0 := by omega
    have h2 : ¬ offset + limit < 0 := by omega
    simp only [h1, h2, if_false]
    have hlo : (min offset (cases.length : Int)).toNat =
        min offset.toNat cases.length := by omega
    have hhi : (min (offset + limit) (cases.length : Int)).toNat =
        min (offset.toNat + limit.toNat) cases.length := by omega
    rw [hlo, hhi]
    by_cases hc : offset.toNat ≤ cases.length
    · have hm : min offset.toNat cases.length = offset.toNat := by omega
      have hd : min (offset.toNat + limit.toNat) cases.length - offset.toNat =
          min limit.toNat (cases.length - offset.toNat) := by omega
      rw [hm, hd]
      have hlen : (cases.drop offset.toNat).length = cases.length - offset.toNat := by
        simp
      rw [← hlen, take_min_length]
    · have hm : min offset.toNat cases.length = cases.length := by omega
      have hh : min (offset.toNat + limit.toNat) cases.length = cases.length := by omega
      rw [hm, hh, Nat.sub_self, List.take_zero,
        List.drop_eq_nil_of_le (by omega : cases.length ≤ offset.toNat), List.take_nil]
  refine ⟨key, rfl, fun h => ?_⟩
  calc (paginate cases limit offset).items
      = (cases.drop offset.toNat).take limit.toNat := key
    _ = [] := by rw [List.drop_eq_nil_of_le h, List.take_nil]

/-- A five-record input for the spec's pagination scenario. -/
def fiveCases : List Value := [caseWithA, caseWithA, caseWithA, caseNoA, caseNoA]

/-- C5 witness: the spec scenario `paginate(5 records, limit=10,
offset=3)`, through `paginate_spec` itself. -/
theorem paginate_spec_witness :
    (paginate fiveCases 10 3).items =
      (fiveCases.drop (3 : Int).toNat).take (10 : Int).toNat ∧
    (paginate fiveCases 10 3).total = fiveCases.length ∧
    (fiveCases.length ≤ (3 : Int).toNat → (paginate fiveCases 10 3).items = []) :=
  paginate_spec fiveCases 10 3 (by decide) (by decide)

theorem streamFileExport_eq (up : Nat → Attempt) :
    streamFileExport up = runFrom up 0 2 := rfl

/-- The run from attempt `n + 1` with `r` retries allowed reads the
upstream only at indices `n .. n + r`. -/
theorem runFrom_congr (up up2 : Nat → Attempt) :
    ∀ r n, (∀ i, n ≤ i → i ≤ n + r → up2 i = up i) →
      runFrom up2 n r = runFrom up n r := by
  intro r
  induction r with
  | zero =>
    intro n h
    have h0 : up2 n = up n := h n le_rfl (by omega)
    simp only [runFrom, h0]
  | succ r ih =>
    intro n h
    have h0 : up2 n = up n := h n le_rfl (by omega)
    have hrec : runFrom up2 (n + 1) r = runFrom up (n + 1) r :=
      ih (n + 1) (fun i hi1 hi2 => h i (by omega) (by omega))
    cases a : up n with
    | transportFail k d =>
      have b : up2 n = .transportFail k d := h0.trans a
      rw [runFrom_transport_retry up n r k d a,
        runFrom_transport_retry up2 n r k d b, hrec]
    | response s cs =>
      have b : up2 n = .response s cs := h0.trans a
      by_cases h4 : 400 ≤ s
      · by_cases h5 : 500 ≤ s ∧ s < 600
        · rw [runFrom_status_retry up n r s cs a h5,
            runFrom_status_retry up2 n r s cs b h5, hrec]
        · rw [runFrom_status_noretry up n (r + 1) s cs a h4 h5,
            runFrom_status_noretry up2 n (r + 1) s cs b h4 h5]
      · have hs : s < 400 := by omega
        rw [runFrom_ok up n (r + 1) s cs a hs, runFrom_ok up2 n (r + 1) s cs b hs]

/-- C3: the retry policy of `_stream_file_export`. (1) When the first
two attempts fail with transient transport errors and the third
returns a success status, the run succeeds on the third attempt, with
exactly 3 requests issued and the linear backoff sleeps `[1, 2]`
seconds. (2) When all three attempts fail with transport errors, the
last error is surfaced after exactly 3 requests. (3) A non-5xx error
status on the first attempt is surfaced immediately: one request, no
sleep, no retry. (4) The run depends only on the first `MAX_RETRIES`
attempts — no fourth request is ever issued. -/
theorem stream_retry_policy (up : Nat → Attempt) :
    ((∃ k d, up 0 = .transportFail k d) → (∃ k d, up 1 = .transportFail k d) →
      ∀ s cs, up 2 = .response s cs → s < 400 →
        (streamFileExport up).outcome = .ok ∧
        (streamFileExport up).requests = 3 ∧
        (streamFileExport up).sleeps = [1, 2]) ∧
    (∀ k0 d0 k1 d1 k2 d2,
      up 0 = .transportFail k0 d0 → up 1 = .transportFail k1 d1 →
      up 2 = .transportFail k2 d2 →
        (streamFileExport up).outcome = .transportErr k2 ∧
        (streamFileExport up).requests = 3) ∧
    (∀ s cs, up 0 = .response s cs → 400 ≤ s → ¬(500 ≤ s ∧ s < 600) →
        (streamFileExport up).outcome = .statusErr s ∧
        (streamFileExport up).requests = 1 ∧
        (streamFileExport up).sleeps = []) ∧
    (∀ up2 : Nat → Attempt, up2 0 = up 0 → up2 1 = up 1 → up2 2 = up 2 →
        streamFileExport up2 = streamFileExport up) := by
  refine ⟨?_, ?_, ?_, ?_⟩
  · rintro ⟨k0, d0, h0⟩ ⟨k1, d1, h1⟩ s cs h2 hs
    have e0 := runFrom_transport_retry up 0 1 k0 d0 h0
    have e1 := runFrom_transport_retry up 1 0 k1 d1 h1
    have e2 := runFrom_ok up 2 0 s cs h2 hs
    norm_num at e0 e1
    refine ⟨?_, ?_, ?_⟩ <;> simp [streamFileExport_eq, e0, e1, e2]
  · intro k0 d0 k1 d1 k2 d2 h0 h1 h2
    have e0 := runFrom_transport_retry up 0 1 k0 d0 h0
    have e1 := runFrom_transport_retry up 1 0 k1 d1 h1
    have e2 := runFrom_transport_last up 2 k2 d2 h2
    norm_num at e0 e1
    constructor <;> simp [streamFileExport_eq, e0, e1, e2]
  · intro s cs h0 h4 h5
    have e := runFrom_status_noretry up 0 2 s cs h0 h4 h5
    refine ⟨?_, ?_, ?_⟩ <;> simp [streamFileExport_eq, e]
  · intro up2 g0 g1 g2
    rw [streamFileExport_eq, streamFileExport_eq]
    refine runFrom_congr up up2 2 0 (fun i hi1 hi2 => ?_)
    have : i = 0 ∨ i = 1 ∨ i = 2 := by omega
    rcases this with rfl | rfl | rfl <;> assumption

/-- C3 witness: the spec's retry scenario — transient failure on
attempts 1 and 2, success on attempt 3 — through
`stream_retry_policy` itself. -/
theorem stream_retry_policy_witness :
    (streamFileExport upTwoTransientThenOk).outcome = .ok ∧
    (streamFileExport upTwoTransientThenOk).requests = 3 ∧
    (streamFileExport upTwoTransientThenOk).sleeps = [1, 2] :=
  (stream_retry_policy upTwoTransientThenOk).1
    ⟨.readTimeout, [], rfl⟩ ⟨.connectError, [], rfl⟩ 200 [[2, 3]] rfl (by decide)

/-- When every transport failure of the upstream delivers no chunks
before failing, the caller observes either one attempt's full
successful body or an error with nothing delivered. -/
theorem runFrom_chunkless (up : Nat → Attempt)
    (h : ∀ n k d, up n = .transportFail k d → d = []) :
    ∀ r n,
      ((runFrom up n r).outcome = .ok ∧
        ∃ i s, n ≤ i ∧ i ≤ n + r ∧
          up i = .response s ((runFrom up n r).delivered) ∧ s < 400) ∨
      ((runFrom up n r).outcome ≠ .ok ∧ (runFrom up n r).delivered = []) := by
  intro r
  induction r with
  | zero =>
    intro n
    cases a : up n with
    | transportFail k d =>
      have hd := h n k d a
      subst hd
      right
      rw [runFrom_transport_last up n k [] a]
      exact ⟨fun hh => Outcome.noConfusion hh, rfl⟩
    | response s cs =>
      by_cases h4 : 400 ≤ s
      · right
        rw [runFrom_status_last up n s cs a h4]
        exact ⟨fun hh => Outcome.noConfusion hh, rfl⟩
      · left
        rw [runFrom_ok up n 0 s cs a (by omega)]
        exact ⟨rfl, n, s, le_rfl, by omega, a, by omega⟩
  | succ r ih =>
    intro n
    cases a : up n with
    | transportFail k d =>
      have hd := h n k d a
      subst hd
      rw [runFrom_transport_retry up n r k [] a]
      rcases ih (n + 1) with ⟨hok, i, s, hi1, hi2, hup, hs⟩ | ⟨hno, hdel⟩
      · exact Or.inl ⟨hok, i, s, by omega, by omega, hup, hs⟩
      · exact Or.inr ⟨hno, by simpa using hdel⟩
    | response s cs =>
      by_cases h4 : 400 ≤ s
      · by_cases h5 : 500 ≤ s ∧ s < 600
        · rw [runFrom_status_retry up n r s cs a h5]
          rcases ih (n + 1) with ⟨hok, i, s2, hi1, hi2, hup, hs2⟩ | ⟨hno, hdel⟩
          · exact Or.inl ⟨hok, i, s2, by omega, by omega, hup, hs2⟩
          · exact Or.inr ⟨hno, hdel⟩
        · right
          rw [runFrom_status_noretry up n (r + 1) s cs a h4 h5]
          exact ⟨fun hh => Outcome.noConfusion hh, rfl⟩
      · left
        rw [runFrom_ok up n (r + 1) s cs a (by omega)]
        exact ⟨rfl, n, s, le_rfl, by omega, a, by omega⟩

/-- C2 (amended): chunks are forwarded to the caller as they arrive,
so the no-partial-data guarantee holds exactly when failed attempts
deliver nothing before failing (connection failures and error
statuses): in that case the caller observes either the full body of
one successful attempt or an error with no chunk delivered. (The
unamended claim is refuted by `stream_partial_data_reaches_caller`:
an attempt that fails mid-body leaves its chunks with the caller.) -/
theorem stream_no_partial_when_failures_chunkless (up : Nat → Attempt)
    (h : ∀ n k d, up n = .transportFail k d → d = []) :
    ((streamFileExport up).outcome = .ok ∧
      ∃ i s, i < MAX_RETRIES ∧
        up i = .response s ((streamFileExport up).delivered) ∧ s < 400) ∨
    ((streamFileExport up).outcome ≠ .ok ∧ (streamFileExport up).delivered = []) := by
  rcases runFrom_chunkless up h 2 0 with ⟨hok, i, s, hi1, hi2, hup, hs⟩ | ⟨hno, hdel⟩
  · exact Or.inl ⟨hok, i, s, by simp [MAX_RETRIES]; omega, hup, hs⟩
  · exact Or.inr ⟨hno, hdel⟩

/-- C2 witness: an upstream that succeeds immediately, through
`stream_no_partial_when_failures_chunkless` itself. -/
theorem stream_no_partial_when_failures_chunkless_witness :
    ((streamFileExport upAllOk).outcome = .ok ∧
      ∃ i s, i < MAX_RETRIES ∧
        upAllOk i = .response s ((streamFileExport upAllOk).delivered) ∧ s < 400) ∨
    ((streamFileExport upAllOk).outcome ≠ .ok ∧ (streamFileExport upAllOk).delivered = []) :=
  stream_no_partial_when_failures_chunkless upAllOk
    (fun _n _k _d hh => Attempt.noConfusion hh)

/-- C2 counterexample: when the first attempt delivers one chunk and
then fails with a transient transport error, and the retry succeeds
with a different body, the caller still receives the failed attempt's
chunk — the stream ends `.ok` but what was delivered (`[[1], [2]]`) is
not the successful attempt's body (`[[2]]`): partial data from a
failed attempt reached the caller, refuting the claim as stated. -/
theorem stream_partial_data_reaches_caller :
    upMidStreamFail 0 = .transportFail .readTimeout [[1]] ∧
    upMidStreamFail 1 = .response 200 [[2]] ∧
    (streamFileExport upMidStreamFail).outcome = .ok ∧
    (streamFileExport upMidStreamFail).delivered = [[1], [2]] ∧
    (streamFileExport upMidStreamFail).delivered ≠ [[2]] :=
  ⟨rfl, rfl, rfl, rfl, by decide⟩

/-- The four accident-severity buckets of `generate_stats`. -/
inductive Bucket where
  | fatal
  | serious
  | minor
  | noInjury
deriving Repr, DecidableEq

/-- The `if fatal > 0 / elif serious > 0 / elif minor > 0 / else`
precedence chain: the first positive count wins. -/
def classify (fatal serious minor : Int) : Bucket :=
  if 0 < fatal then .fatal
  else if 0 < serious then .serious
  else if 0 < minor then .minor
  else .noInjury

/-- The totals field holding each bucket's accident count. -/
def bucketCount (t : StatsTotals) : Bucket → Int
  | .fatal => t.fatal_accidents
  | .serious => t.serious_injury_accidents
  | .minor => t.minor_injury_accidents
  | .noInjury => t.no_injury_accidents

/-- One loop iteration of `generate_stats` counts the record once and
adds exactly one to the bucket selected by `classify` on the three
coerced injury counts, leaving the other three buckets unchanged. -/
theorem statsStep_buckets (acc : StatsResult) (fields : Fields) (acc2 : StatsResult)
    (h : statsStep acc (.obj fields) = some acc2) :
    ∃ fatal serious minor,
      getCountOrZero fields "cm_fatalInjuryCount" = some fatal ∧
      getCountOrZero fields "cm_seriousInjuryCount" = some serious ∧
      getCountOrZero fields "cm_minorInjuryCount" = some minor ∧
      acc2.totals.accidents = acc.totals.accidents + 1 ∧
      ∀ b : Bucket, bucketCount acc2.totals b =
        bucketCount acc.totals b +
          (if classify fatal serious minor = b then 1 else 0) := by
  have h2 : statsStepObj acc fields = some acc2 := h
  unfold statsStepObj at h2
  split at h2
  · exact Option.noConfusion h2
  rename_i fatal hf
  split at h2
  · exact Option.noConfusion h2
  rename_i serious hs
  split at h2
  · exact Option.noConfusion h2
  rename_i minor hm
  split at h2
  · exact Option.noConfusion h2
  rename_i byHighest hbh
  split at h2
  · exact Option.noConfusion h2
  rename_i byState hbs
  have hacc := Option.some.inj h2
  refine ⟨fatal, serious, minor, hf, hs, hm, ?_, ?_⟩
  · rw [← hacc]
  · intro b
    rw [← hacc]
    cases b <;>
      by_cases h1 : 0 < fatal <;> by_cases h2 : 0 < serious <;>
        by_cases h3 : 0 < minor <;>
          simp [bucketCount, classify, h1, h2, h3]

/-- The bucket-sum invariant `accidents = fatal + serious + minor +
none accidents` is preserved by each loop iteration. -/
theorem statsStep_sum_inv (acc : StatsResult) (c : Value) (acc2 : StatsResult)
    (h : statsStep acc c = some acc2)
    (ha : acc.totals.accidents =
      acc.totals.fatal_accidents + acc.totals.serious_injury_accidents +
      acc.totals.minor_injury_accidents + acc.totals.no_injury_accidents) :
    acc2.totals.accidents =
      acc2.totals.fatal_accidents + acc2.totals.serious_injury_accidents +
      acc2.totals.minor_injury_accidents + acc2.totals.no_injury_accidents := by
  cases c with
  | obj fields =>
    rcases statsStep_buckets acc fields acc2 h with
      ⟨fatal, serious, minor, _, _, _, hacc, hb⟩
    have hF := hb .fatal
    have hS := hb .serious
    have hM := hb .minor
    have hN := hb .noInjury
    simp only [bucketCount] at hF hS hM hN
    cases hcl : classify fatal serious minor <;>
      rw [hcl] at hF hS hM hN <;> simp at hF hS hM hN <;> omega
  | null => simp [statsStep] at h
  | bool b => simp [statsStep] at h
  | int n => simp [statsStep] at h
  | str s => simp [statsStep] at h
  | list xs => simp [statsStep] at h

theorem generateStats_fold_inv :
    ∀ (cases : List Value) (acc st : StatsResult),
      List.foldlM statsStep acc cases = some st →
      acc.totals.accidents =
        acc.totals.fatal_accidents + acc.totals.serious_injury_accidents +
        acc.totals.minor_injury_accidents + acc.totals.no_injury_accidents →
      st.totals.accidents =
        st.totals.fatal_accidents + st.totals.serious_injury_accidents +
        st.totals.minor_injury_accidents + st.totals.no_injury_accidents := by
  intro cases
  induction cases with
  | nil =>
    intro acc st h ha
    have hst := Option.some.inj h
    rw [← hst]
    exact ha
  | cons c rest ih =>
    intro acc st h ha
    rw [List.foldlM_cons] at h
    cases h1 : statsStep acc c with
    | none => rw [h1] at h; exact Option.noConfusion h
    | some acc2 =>
      rw [h1] at h
      rw [show (some acc2 >>= fun init => List.foldlM statsStep init rest) =
        List.foldlM statsStep acc2 rest from rfl] at h
      exact ih acc2 st h (statsStep_sum_inv acc c acc2 h1 ha)

/-- C4: whenever `generate_stats` completes, `accidents` equals the sum
of the four severity buckets; and per record, exactly one bucket is
incremented, the one selected by the precedence `fatal > serious >
minor > none` on the coerced injury counts (first count `> 0` wins). -/
theorem generate_stats_buckets :
    (∀ (cases : List Value) (st : StatsResult), generateStats cases = some st →
      st.totals.accidents =
        st.totals.fatal_accidents + st.totals.serious_injury_accidents +
        st.totals.minor_injury_accidents + st.totals.no_injury_accidents) ∧
    (∀ (acc : StatsResult) (fields : Fields) (acc2 : StatsResult),
      statsStep acc (.obj fields) = some acc2 →
      ∃ fatal serious minor,
        getCountOrZero fields "cm_fatalInjuryCount" = some fatal ∧
        getCountOrZero fields "cm_seriousInjuryCount" = some serious ∧
        getCountOrZero fields "cm_minorInjuryCount" = some minor ∧
        acc2.totals.accidents = acc.totals.accidents + 1 ∧
        ∀ b : Bucket, bucketCount acc2.totals b =
          bucketCount acc.totals b +
            (if classify fatal serious minor = b then 1 else 0)) := by
  constructor
  · intro cases st h
    exact generateStats_fold_inv cases emptyStats st h (by norm_num [emptyStats, emptyTotals])
  · exact statsStep_buckets

/-- The stats result of the spec's two-record scenario. -/
def scenStats : StatsResult :=
  { totals :=
      { accidents := 2, fatal_accidents := 1, serious_injury_accidents := 0
        minor_injury_accidents := 0, no_injury_accidents := 1
        fatalities := 1, serious_injuries := 0, minor_injuries := 0 }
    by_state := [(.str "OK", 1), (.str "TX", 1)]
    by_highest_injury := [(.str "Fatal", 1), (.str "None", 1)] }

/-- C4 witness: the spec's stats scenario, through
`generate_stats_buckets` itself. -/
theorem generate_stats_buckets_witness :
    generateStats [scenFatal, scenNone] = some scenStats ∧
    scenStats.totals.accidents =
      scenStats.totals.fatal_accidents + scenStats.totals.serious_injury_accidents +
      scenStats.totals.minor_injury_accidents + scenStats.totals.no_injury_accidents :=
  ⟨rfl, generate_stats_buckets.1 [scenFatal, scenNone] scenStats rfl⟩

/-- When the new element compares against every element of the sorted
prefix without a `TypeError`, insertion succeeds and permutes. -/
theorem insertSorted_some (lt : Value → Value → Option Bool) (x : Value) :
    ∀ l : List Value, (∀ y ∈ l, (lt x y).isSome) →
      ∃ r, insertSorted lt x l = some r ∧ r.Perm (x :: l) := by
  intro l
  induction l with
  | nil => intro _; exact ⟨[x], rfl, List.Perm.refl _⟩
  | cons y ys ih =>
    intro h
    have hy : (lt x y).isSome := h y (List.mem_cons_self y ys)
    cases ho : lt x y with
    | none => rw [ho] at hy; exact absurd hy (by simp)
    | some b =>
      cases b with
      | true =>
        refine ⟨x :: y :: ys, ?_, List.Perm.refl _⟩
        simp [insertSorted, ho]
      | false =>
        rcases ih (fun z hz => h z (List.mem_cons_of_mem y hz)) with ⟨r, hr, hp⟩
        refine ⟨y :: r, ?_, ?_⟩
        · simp [insertSorted, ho, hr]
        · exact (hp.cons y).trans (List.Perm.swap x y ys)

/-- The insertion-sort fold succeeds and permutes whenever all its
elements are pairwise comparable (every comparison it can make is
between two elements of the input). -/
theorem sortFold_perm (lt : Value → Value → Option Bool) (P : Value → Prop)
    (hcomp : ∀ a b, P a → P b → (lt a b).isSome) :
    ∀ (l acc : List Value), (∀ a ∈ l, P a) → (∀ b ∈ acc, P b) →
      ∃ r, List.foldlM (fun acc2 x => insertSorted lt x acc2) acc l = some r ∧
        r.Perm (acc ++ l) := by
  intro l
  induction l with
  | nil => intro acc _ _; exact ⟨acc, rfl, by simp⟩
  | cons x xs ih =>
    intro acc hl hacc
    have hx : P x := hl x (List.mem_cons_self x xs)
    rcases insertSorted_some lt x acc (fun y hy => hcomp x y hx (hacc y hy)) with
      ⟨acc2, hins, hperm⟩
    have hacc2 : ∀ b ∈ acc2, P b := by
      intro b hb
      rcases List.mem_cons.mp (hperm.mem_iff.mp hb) with rfl | hmem
      · exact hx
      · exact hacc b hmem
    rcases ih acc2 (fun a ha => hl a (List.mem_cons_of_mem x ha)) hacc2 with
      ⟨r, hfold, hperm2⟩
    refine ⟨r, ?_, ?_⟩
    · rw [List.foldlM_cons, hins]
      exact hfold
    · have p2 : (acc2 ++ xs).Perm ((x :: acc) ++ xs) := hperm.append_right xs
      have p3 : ((x :: acc) ++ xs).Perm (acc ++ x :: xs) := List.perm_middle.symm
      exact hperm2.trans (p2.trans p3)

/-- C10: for a non-empty sort field and any order string, `sort_cases`
succeeds (no `TypeError`) and returns a permutation of its input
whenever the present (non-null) resolved key values of its records are
mutually order-comparable under Python `<` — the comparability
precondition the raw-value sort key imposes. -/
theorem sort_cases_permutation (cases : List Value) (field : String) (order : String)
    (hf : field ≠ "")
    (hcomp : ∀ c1 ∈ cases, ∀ c2 ∈ cases,
      getNestedValueSort c1 field ≠ .null → getNestedValueSort c2 field ≠ .null →
      (pyLt (getNestedValueSort c1 field) (getNestedValueSort c2 field)).isSome) :
    ∃ l, sortCases cases field order = some l ∧ l.Perm cases := by
  have hcomp2 : ∀ a b, a ∈ cases → b ∈ cases →
      (sortKeyLt (sortKey field a) (sortKey field b)).isSome := by
    intro a b ha hb
    unfold sortKey sortKeyLt
    by_cases h1 : getNestedValueSort a field = .null <;>
      by_cases h2 : getNestedValueSort b field = .null
    · simp [h1, h2, show pyEq Value.null Value.null = true from rfl]
    · simp [h1, h2]
    · simp [h1, h2]
    · by_cases he : pyEq (getNestedValueSort a field) (getNestedValueSort b field) = true
      · simp [h1, h2, he]
      · simp [h1, h2, he, hcomp a ha b hb h1 h2]
  have main : ∀ b : Bool,
      ∃ l, pySorted (fun c1 c2 => sortKeyLt (sortKey field c1) (sortKey field c2))
        cases b = some l ∧ l.Perm cases := by
    intro b
    cases b with
    | false =>
      rcases sortFold_perm _ (fun v => v ∈ cases) hcomp2 cases []
          (fun a ha => ha) (fun a ha => absurd ha (List.not_mem_nil a)) with ⟨r, hr, hp⟩
      refine ⟨r, ?_, ?_⟩
      · simp [pySorted, pySortAsc, hr]
      · simpa using hp
    | true =>
      rcases sortFold_perm _ (fun v => v ∈ cases) hcomp2 cases.reverse []
          (fun a ha => List.mem_reverse.mp ha)
          (fun a ha => absurd ha (List.not_mem_nil a)) with ⟨r, hr, hp⟩
      refine ⟨r.reverse, ?_, ?_⟩
      · simp [pySorted, pySortAsc, hr]
      · have h1 : r.Perm cases.reverse := by simpa using hp
        exact (r.reverse_perm).trans (h1.trans cases.reverse_perm)
  unfold sortCases
  rw [if_neg hf]
  exact main _

/-- C10 witness: sorting `[{"a": 1}, {}]` ascending by `"a"`, through
`sort_cases_permutation` itself. -/
theorem sort_cases_permutation_witness :
    ∃ l, sortCases [caseWithA, caseNoA] "a" "asc" = some l ∧
      l.Perm [caseWithA, caseNoA] :=
  sort_cases_permutation [caseWithA, caseNoA] "a" "asc" (by decide) (by decide)
